import Mathlib

/-!
Shallow embedding of the call supervisor ("circuit breaker") implemented in
`patterns/circuit_breaker.go` of the concurrency-examples repository, and
proofs of the specification's testable properties about it.

Modelling conventions:
* Timestamps (`time.Time`) and durations (`time.Duration`) are `Int`
  (Go durations are int64 nanosecond counts); `time.Since(t)` at the moment
  `now` is `now - t`.  Each call receives the instant `now` at which it runs.
* Go `error` values in this file are produced by `fmt.Errorf` and are
  observed by callers only through their message (the demo code itself
  branches on `err.Error() == "circuit breaker is OPEN"`), so an error is
  modelled as its message `String`, and a fallible result as `Option String`
  (`none` = nil error / success, `some msg` = failure).
* The wrapped operation `fn func() error` is an arbitrary closure; it is
  modelled as a state transformer `σ → σ × Option String` over an abstract
  effect state `σ`, so that invocation of the operation is observable
  (instantiating `σ := Nat` with a counting operation gives the
  "call counter on the operation" that the specification asks tests to use).
* The mutex is held for the entire body of `Call`, so every call executes
  atomically with respect to the shared fields; a concurrent workload is
  modelled as an arbitrary sequential interleaving of atomic calls.
* Go `int` arithmetic is modelled by unbounded `Int`: the only counter,
  `failureCount`, is reset on every success and compared against a fixed
  threshold, so int64 overflow is unreachable in the behaviours the claims
  quantify over.
-/

inductive CircuitState where
  | CLOSED
  | OPEN
  | HALF_OPEN
  deriving DecidableEq

/-- The `CircuitBreaker` struct: mutable fields `state`, `failureCount`,
`lastFailure` and immutable configuration `failureThreshold`, `timeout`.
The `sync.RWMutex` field has no data content; it is modelled by the
atomicity of `Call` (see the module docstring). -/
structure CircuitBreaker where
  state : CircuitState
  failureCount : Int
  lastFailure : Int
  failureThreshold : Int
  timeout : Int
  deriving DecidableEq

/-- The message of the rejection error `fmt.Errorf("circuit breaker is OPEN")`. -/
def breakerOpenMsg : String := "circuit breaker is OPEN"

/-- `NewCircuitBreaker(threshold, timeout)`: zero-valued fields `state = CLOSED`
(= iota 0), `failureCount = 0`, `lastFailure` = zero time. -/
def NewCircuitBreaker (threshold : Int) (timeout : Int) : CircuitBreaker :=
  { state := CircuitState.CLOSED
    failureCount := 0
    lastFailure := 0
    failureThreshold := threshold
    timeout := timeout }

/-- The body of `Call` from the point where `fn()` is invoked (the code after
the `if cb.state == OPEN` check): run the operation, and on error increment
`failureCount`, re-trip from HALF_OPEN or trip from CLOSED at the threshold,
recording `lastFailure`; on success close from HALF_OPEN and reset the count. -/
def CircuitBreaker.afterCheck {σ : Type} (cb : CircuitBreaker) (now : Int)
    (fn : σ → σ × Option String) (s : σ) : CircuitBreaker × σ × Option String :=
  match fn s with
  | (s1, some e) =>
    let cb1 := { cb with failureCount := cb.failureCount + 1 }
    if cb1.state = CircuitState.HALF_OPEN then
      ({ cb1 with state := CircuitState.OPEN, lastFailure := now }, s1, some e)
    else
      let cb2 := { cb1 with lastFailure := now }
      if cb2.failureThreshold ≤ cb2.failureCount then
        ({ cb2 with state := CircuitState.OPEN }, s1, some e)
      else
        (cb2, s1, some e)
  | (s1, none) =>
    let cb1 :=
      if cb.state = CircuitState.HALF_OPEN then
        { cb with state := CircuitState.CLOSED }
      else cb
    ({ cb1 with failureCount := 0 }, s1, none)

/-- `(cb *CircuitBreaker) Call(fn func() error) error`, executed at instant
`now`.  If the state is OPEN: when `time.Since(cb.lastFailure) > cb.timeout`
move to HALF_OPEN with `failureCount = 0` and fall through to run `fn`,
otherwise return the rejection error without touching `fn`. -/
def CircuitBreaker.Call {σ : Type} (cb : CircuitBreaker) (now : Int)
    (fn : σ → σ × Option String) (s : σ) : CircuitBreaker × σ × Option String :=
  if cb.state = CircuitState.OPEN then
    if cb.timeout < now - cb.lastFailure then
      CircuitBreaker.afterCheck
        { cb with state := CircuitState.HALF_OPEN, failureCount := 0 } now fn s
    else
      (cb, s, some breakerOpenMsg)
  else
    CircuitBreaker.afterCheck cb now fn s

/-- `(cb *CircuitBreaker) GetState() CircuitState`. -/
def CircuitBreaker.GetState (cb : CircuitBreaker) : CircuitState :=
  cb.state

/-- An operation that records its invocations in a counter and then returns
the fixed result `r` — the "call counter on the operation" from the spec. -/
def countingOp (r : Option String) : Nat → Nat × Option String :=
  fun n => (n + 1, r)

/-- One scripted call: at instant `p.1` run an operation that returns `p.2`. -/
def callStep (cb : CircuitBreaker) (p : Int × Option String) : CircuitBreaker :=
  (CircuitBreaker.Call cb p.1 (countingOp p.2) 0).1

/-- Run a scripted sequence of calls (instant, operation result) in order. -/
def runCalls (cb : CircuitBreaker) (calls : List (Int × Option String)) : CircuitBreaker :=
  calls.foldl callStep cb

/-- Number of calls in a scripted batch, all run at the single instant `now`,
that arrive while the breaker is OPEN with the timeout expired — i.e. that
perform the OPEN → HALF_OPEN transition and run the operation as the probe. -/
def probeCount (cb : CircuitBreaker) (now : Int) (outcomes : List (Option String)) : Nat :=
  match outcomes with
  | [] => 0
  | r :: rest =>
    (if cb.state = CircuitState.OPEN ∧ cb.timeout < now - cb.lastFailure then 1 else 0)
      + probeCount (CircuitBreaker.Call cb now (countingOp r) 0).1 now rest

/-! ### Helper lemmas -/

theorem afterCheck_snd_counting (cb : CircuitBreaker) (now : Int) (r : Option String) :
    (CircuitBreaker.afterCheck cb now (countingOp r) 0).2 = (1, r) := by
  cases r with
  | none => simp [CircuitBreaker.afterCheck, countingOp]
  | some e =>
    simp only [CircuitBreaker.afterCheck, countingOp]
    split_ifs <;> rfl

theorem afterCheck_snd {σ : Type} (cb : CircuitBreaker) (now : Int)
    (fn : σ → σ × Option String) (s : σ) :
    (CircuitBreaker.afterCheck cb now fn s).2.2 = (fn s).2 := by
  unfold CircuitBreaker.afterCheck
  rcases hfn : fn s with ⟨s1, e⟩
  cases e with
  | none => simp
  | some msg => simp only; split_ifs <;> rfl

theorem afterCheck_success_count {σ : Type} (cb : CircuitBreaker) (now : Int)
    (fn : σ → σ × Option String) (s : σ) (h : (fn s).2 = none) :
    (CircuitBreaker.afterCheck cb now fn s).1.failureCount = 0 := by
  unfold CircuitBreaker.afterCheck
  rcases hfn : fn s with ⟨s1, e⟩
  rw [hfn] at h
  simp at h
  subst h
  simp

theorem call_run_snd {σ : Type} (cb : CircuitBreaker) (now : Int)
    (fn : σ → σ × Option String) (s : σ)
    (h : cb.state = CircuitState.OPEN → cb.timeout < now - cb.lastFailure) :
    (CircuitBreaker.Call cb now fn s).2.2 = (fn s).2 := by
  unfold CircuitBreaker.Call
  by_cases hst : cb.state = CircuitState.OPEN
  · rw [if_pos hst, if_pos (h hst)]; exact afterCheck_snd _ _ _ _
  · rw [if_neg hst]; exact afterCheck_snd _ _ _ _

theorem call_counting_run (cb : CircuitBreaker) (now : Int) (r : Option String)
    (h : cb.state = CircuitState.OPEN → cb.timeout < now - cb.lastFailure) :
    (CircuitBreaker.Call cb now (countingOp r) 0).2 = (1, r) := by
  unfold CircuitBreaker.Call
  by_cases hst : cb.state = CircuitState.OPEN
  · rw [if_pos hst, if_pos (h hst)]; exact afterCheck_snd_counting _ _ _
  · rw [if_neg hst]; exact afterCheck_snd_counting _ _ _

theorem call_config {σ : Type} (cb : CircuitBreaker) (now : Int)
    (fn : σ → σ × Option String) (s : σ) :
    (CircuitBreaker.Call cb now fn s).1.failureThreshold = cb.failureThreshold
    ∧ (CircuitBreaker.Call cb now fn s).1.timeout = cb.timeout := by
  have hafter : ∀ d : CircuitBreaker,
      (CircuitBreaker.afterCheck d now fn s).1.failureThreshold = d.failureThreshold
      ∧ (CircuitBreaker.afterCheck d now fn s).1.timeout = d.timeout := by
    intro d
    unfold CircuitBreaker.afterCheck
    rcases hfn : fn s with ⟨s1, e⟩
    cases e with
    | none => simp only; split_ifs <;> simp
    | some msg => simp only; split_ifs <;> simp
  unfold CircuitBreaker.Call
  by_cases hst : cb.state = CircuitState.OPEN
  · by_cases ht : cb.timeout < now - cb.lastFailure
    · rw [if_pos hst, if_pos ht]; exact hafter _
    · rw [if_pos hst, if_neg ht]; exact ⟨rfl, rfl⟩
  · rw [if_neg hst]; exact hafter _

theorem runCalls_cons (cb : CircuitBreaker) (p : Int × Option String)
    (l : List (Int × Option String)) :
    runCalls cb (p :: l) = runCalls (callStep cb p) l := rfl

theorem callStep_closed_fail (cb : CircuitBreaker) (now : Int) (e : String)
    (hst : cb.state = CircuitState.CLOSED) :
    callStep cb (now, some e) =
      if cb.failureThreshold ≤ cb.failureCount + 1 then
        { cb with
            state := CircuitState.OPEN
            failureCount := cb.failureCount + 1
            lastFailure := now }
      else
        { cb with failureCount := cb.failureCount + 1, lastFailure := now } := by
  simp only [callStep, CircuitBreaker.Call, CircuitBreaker.afterCheck, countingOp, hst]
  split_ifs <;> simp_all

theorem callStep_open_fail (cb : CircuitBreaker) (now : Int) (e : String)
    (hst : cb.state = CircuitState.OPEN) :
    (callStep cb (now, some e)).state = CircuitState.OPEN := by
  unfold callStep CircuitBreaker.Call
  rw [if_pos hst]
  by_cases ht : cb.timeout < now - cb.lastFailure
  · rw [if_pos ht]
    simp [CircuitBreaker.afterCheck, countingOp]
  · rw [if_neg ht]
    exact hst

theorem runCalls_fail_open (l : List (Int × String)) : ∀ cb : CircuitBreaker,
    cb.state = CircuitState.OPEN →
    (runCalls cb (l.map fun p => (p.1, some p.2))).state = CircuitState.OPEN := by
  induction l with
  | nil => intro cb h; simpa [runCalls] using h
  | cons p l ih =>
    intro cb h
    rw [List.map_cons, runCalls_cons]
    exact ih _ (callStep_open_fail cb p.1 p.2 h)

theorem runCalls_closed_under (l : List (Int × String)) : ∀ cb : CircuitBreaker,
    cb.state = CircuitState.CLOSED →
    cb.failureCount + l.length < cb.failureThreshold →
    (runCalls cb (l.map fun p => (p.1, some p.2))).state = CircuitState.CLOSED
    ∧ (runCalls cb (l.map fun p => (p.1, some p.2))).failureCount
        = cb.failureCount + l.length := by
  induction l with
  | nil => intro cb h1 h2; exact ⟨by simpa [runCalls] using h1, by simp [runCalls]⟩
  | cons p l ih =>
    intro cb h1 h2
    rw [List.length_cons] at h2
    have hlt : ¬ cb.failureThreshold ≤ cb.failureCount + 1 := by push_cast at h2; omega
    rw [List.map_cons, runCalls_cons, callStep_closed_fail cb p.1 p.2 h1, if_neg hlt]
    have h3 := ih { cb with failureCount := cb.failureCount + 1, lastFailure := p.1 }
      (by simpa using h1)
      (by show cb.failureCount + 1 + (l.length : Int) < cb.failureThreshold
          push_cast at h2; omega)
    refine ⟨h3.1, ?_⟩
    rw [h3.2]
    show cb.failureCount + 1 + (l.length : Int) = cb.failureCount + ((l.length + 1 : Nat) : Int)
    push_cast
    ring

theorem runCalls_trip (l : List (Int × String)) : ∀ cb : CircuitBreaker,
    cb.state = CircuitState.CLOSED →
    cb.failureCount < cb.failureThreshold →
    cb.failureThreshold ≤ cb.failureCount + l.length →
    (runCalls cb (l.map fun p => (p.1, some p.2))).state = CircuitState.OPEN := by
  induction l with
  | nil =>
    intro cb h1 h2 h3
    exfalso
    simp at h3
    omega
  | cons p l ih =>
    intro cb h1 h2 h3
    rw [List.length_cons] at h3
    rw [List.map_cons, runCalls_cons, callStep_closed_fail cb p.1 p.2 h1]
    by_cases hge : cb.failureThreshold ≤ cb.failureCount + 1
    · rw [if_pos hge]
      exact runCalls_fail_open l _ rfl
    · rw [if_neg hge]
      refine ih _ (by simpa using h1) ?_ ?_
      · show cb.failureCount + 1 < cb.failureThreshold
        omega
      · show cb.failureThreshold ≤ cb.failureCount + 1 + (l.length : Int)
        push_cast at h3
        omega

theorem call_post_inv (cb : CircuitBreaker) (now : Int) (r : Option String)
    (hto : 0 ≤ cb.timeout) :
    (CircuitBreaker.Call cb now (countingOp r) 0).1.state = CircuitState.OPEN →
    now - (CircuitBreaker.Call cb now (countingOp r) 0).1.lastFailure
      ≤ (CircuitBreaker.Call cb now (countingOp r) 0).1.timeout := by
  unfold CircuitBreaker.Call
  by_cases hst : cb.state = CircuitState.OPEN
  · by_cases ht : cb.timeout < now - cb.lastFailure
    · rw [if_pos hst, if_pos ht]
      cases r with
      | some e =>
        intro _
        simp [CircuitBreaker.afterCheck, countingOp]
        omega
      | none =>
        intro hcontra
        simp [CircuitBreaker.afterCheck, countingOp] at hcontra
    · rw [if_pos hst, if_neg ht]
      intro _
      simp
      omega
  · rw [if_neg hst]
    unfold CircuitBreaker.afterCheck
    cases r with
    | some e =>
      simp only [countingOp]
      split_ifs with h1 h2 <;> intro hopen <;> simp_all
    | none =>
      simp only [countingOp]
      split_ifs with h1 <;> intro hopen <;> simp_all

theorem probeCount_zero (now : Int) (outcomes : List (Option String)) :
    ∀ cb : CircuitBreaker, 0 ≤ cb.timeout →
    (cb.state = CircuitState.OPEN → now - cb.lastFailure ≤ cb.timeout) →
    probeCount cb now outcomes = 0 := by
  induction outcomes with
  | nil => intro cb _ _; rfl
  | cons r rest ih =>
    intro cb hto hinv
    unfold probeCount
    rw [if_neg (by rintro ⟨h1, h2⟩; exact absurd (hinv h1) (not_le.mpr h2))]
    rw [Nat.zero_add]
    exact ih _ (by rw [(call_config cb now (countingOp r) 0).2]; exact hto)
      (call_post_inv cb now r hto)

theorem afterCheck_not_halfopen {σ : Type} (cb : CircuitBreaker) (now : Int)
    (fn : σ → σ × Option String) (s : σ) :
    (CircuitBreaker.afterCheck cb now fn s).1.state ≠ CircuitState.HALF_OPEN := by
  unfold CircuitBreaker.afterCheck
  rcases hfn : fn s with ⟨s1, e⟩
  cases e with
  | none => simp only; split_ifs <;> simp_all
  | some msg => simp only; split_ifs <;> simp_all

theorem call_not_halfopen {σ : Type} (cb : CircuitBreaker) (now : Int)
    (fn : σ → σ × Option String) (s : σ) :
    (CircuitBreaker.Call cb now fn s).1.state ≠ CircuitState.HALF_OPEN := by
  unfold CircuitBreaker.Call
  by_cases hst : cb.state = CircuitState.OPEN
  · by_cases ht : cb.timeout < now - cb.lastFailure
    · rw [if_pos hst, if_pos ht]; exact afterCheck_not_halfopen _ _ _ _
    · rw [if_pos hst, if_neg ht]; rw [hst]; simp
  · rw [if_neg hst]; exact afterCheck_not_halfopen _ _ _ _

/-! ### Claim theorems -/

/-- Claim C2: a call arriving while OPEN with `now - lastFailure ≤ timeout`
returns the rejection error, does not invoke the operation (the effect state
`s` is returned untouched, for every operation `fn`), and leaves the whole
breaker record — state, failureCount, lastFailure — unchanged. -/
theorem open_within_timeout_rejected {σ : Type} (cb : CircuitBreaker) (now : Int)
    (fn : σ → σ × Option String) (s : σ)
    (hst : cb.state = CircuitState.OPEN)
    (ht : now - cb.lastFailure ≤ cb.timeout) :
    CircuitBreaker.Call cb now fn s = (cb, s, some breakerOpenMsg) := by
  unfold CircuitBreaker.Call
  rw [if_pos hst, if_neg (not_lt.mpr ht)]

theorem open_within_timeout_rejected_witness :
    CircuitBreaker.Call
      { state := CircuitState.OPEN, failureCount := 3, lastFailure := 0,
        failureThreshold := 3, timeout := 1000 }
      600 (countingOp (some "x")) 0
    = ({ state := CircuitState.OPEN, failureCount := 3, lastFailure := 0,
         failureThreshold := 3, timeout := 1000 }, 0, some breakerOpenMsg) :=
  open_within_timeout_rejected
    { state := CircuitState.OPEN, failureCount := 3, lastFailure := 0,
      failureThreshold := 3, timeout := 1000 }
    600 (countingOp (some "x")) 0 rfl (by decide)

/-- Claim C3: a call arriving while OPEN with `now - lastFailure > timeout`
behaves exactly like the post-transition breaker — state HALF_OPEN,
`failureCount` reset to 0 — running the operation, and the operation is
invoked exactly once on this call (the counter moves from 0 to 1): this call
is the probe whose result is evaluated. -/
theorem open_expired_becomes_probe (cb : CircuitBreaker) (now : Int)
    (hst : cb.state = CircuitState.OPEN)
    (ht : cb.timeout < now - cb.lastFailure) :
    (∀ (σ : Type) (fn : σ → σ × Option String) (s : σ),
      CircuitBreaker.Call cb now fn s =
        CircuitBreaker.afterCheck
          { cb with state := CircuitState.HALF_OPEN, failureCount := 0 } now fn s)
    ∧ ∀ r : Option String, (CircuitBreaker.Call cb now (countingOp r) 0).2.1 = 1 := by
  constructor
  · intro σ fn s
    unfold CircuitBreaker.Call
    rw [if_pos hst, if_pos ht]
  · intro r
    have h2 := call_counting_run cb now r (fun _ => ht)
    rw [h2]

theorem open_expired_becomes_probe_witness :
    (CircuitBreaker.Call
      { state := CircuitState.OPEN, failureCount := 3, lastFailure := 0,
        failureThreshold := 3, timeout := 1000 }
      1500 (countingOp none) 0).2.1 = 1 :=
  (open_expired_becomes_probe
    { state := CircuitState.OPEN, failureCount := 3, lastFailure := 0,
      failureThreshold := 3, timeout := 1000 }
    1500 rfl (by decide)).2 none

/-- Claim C4: a probe call (OPEN with expired timeout, whatever the stored
failure count): a failing operation leaves the breaker OPEN with
`lastFailure = now` (a fresh timeout window) and invokes the operation once;
a succeeding operation leaves it CLOSED with `failureCount = 0`. -/
theorem probe_outcome (cb : CircuitBreaker) (now : Int)
    (hst : cb.state = CircuitState.OPEN)
    (ht : cb.timeout < now - cb.lastFailure) :
    (∀ e : String,
      CircuitBreaker.Call cb now (countingOp (some e)) 0 =
        ({ cb with state := CircuitState.OPEN, failureCount := 1, lastFailure := now },
          1, some e))
    ∧ CircuitBreaker.Call cb now (countingOp none) 0 =
        ({ cb with state := CircuitState.CLOSED, failureCount := 0 }, 1, none) := by
  refine ⟨fun e => ?_, ?_⟩
  · simp [CircuitBreaker.Call, CircuitBreaker.afterCheck, countingOp, hst, ht]
  · simp [CircuitBreaker.Call, CircuitBreaker.afterCheck, countingOp, hst, ht]

theorem probe_outcome_witness :
    CircuitBreaker.Call
      { state := CircuitState.OPEN, failureCount := 3, lastFailure := 0,
        failureThreshold := 3, timeout := 1000 }
      1500 (countingOp (some "still down")) 0
    = ({ state := CircuitState.OPEN, failureCount := 1, lastFailure := 1500,
         failureThreshold := 3, timeout := 1000 }, 1, some "still down") :=
  (probe_outcome
    { state := CircuitState.OPEN, failureCount := 3, lastFailure := 0,
      failureThreshold := 3, timeout := 1000 }
    1500 rfl (by decide)).1 "still down"

/-- Claim C5: a call whose result is success (which only happens when the
wrapped operation was run and returned nil) leaves `failureCount = 0`,
whatever the prior state; and concretely, with threshold 3 in CLOSED state
the sequence failure, success, failure, failure leaves the breaker CLOSED. -/
theorem success_resets_failure_count :
    (∀ (σ : Type) (cb : CircuitBreaker) (now : Int) (fn : σ → σ × Option String) (s : σ),
      (CircuitBreaker.Call cb now fn s).2.2 = none →
      (CircuitBreaker.Call cb now fn s).1.failureCount = 0)
    ∧ (runCalls (NewCircuitBreaker 3 1000)
        [(0, some "f"), (1, none), (2, some "f"), (3, some "f")]).state
        = CircuitState.CLOSED := by
  constructor
  · intro σ cb now fn s h
    unfold CircuitBreaker.Call at h ⊢
    by_cases hst : cb.state = CircuitState.OPEN
    · rw [if_pos hst] at h ⊢
      by_cases ht : cb.timeout < now - cb.lastFailure
      · rw [if_pos ht] at h ⊢
        exact afterCheck_success_count _ now fn s ((afterCheck_snd _ now fn s).symm.trans h)
      · rw [if_neg ht] at h
        simp [breakerOpenMsg] at h
    · rw [if_neg hst] at h ⊢
      exact afterCheck_success_count _ now fn s ((afterCheck_snd _ now fn s).symm.trans h)
  · decide

theorem success_resets_failure_count_witness :
    (CircuitBreaker.Call (NewCircuitBreaker 3 1000) 0 (countingOp none) 0).1.failureCount = 0
    ∧ (runCalls (NewCircuitBreaker 3 1000)
        [(0, some "f"), (1, none), (2, some "f"), (3, some "f")]).state
        = CircuitState.CLOSED :=
  ⟨success_resets_failure_count.1 Nat (NewCircuitBreaker 3 1000) 0 (countingOp none) 0 (by decide),
   success_resets_failure_count.2⟩

/-- Claim C6: whenever the wrapped operation is actually run (every case
except the OPEN-and-not-expired rejection), the call's returned error is
exactly the operation's own result — a failing operation's error value is
passed through unmodified, a succeeding operation yields success — and with
a counting operation the counter confirms exactly one invocation. -/
theorem operation_result_passthrough {σ : Type} (cb : CircuitBreaker) (now : Int)
    (fn : σ → σ × Option String) (s : σ)
    (h : cb.state = CircuitState.OPEN → cb.timeout < now - cb.lastFailure) :
    (CircuitBreaker.Call cb now fn s).2.2 = (fn s).2
    ∧ ∀ r : Option String, (CircuitBreaker.Call cb now (countingOp r) 0).2 = (1, r) :=
  ⟨call_run_snd cb now fn s h, fun r => call_counting_run cb now r h⟩

theorem operation_result_passthrough_witness :
    (CircuitBreaker.Call (NewCircuitBreaker 3 1000) 0
      (countingOp (some "downstream boom")) 0).2.2
      = (countingOp (some "downstream boom") 0).2
    ∧ ∀ r : Option String,
        (CircuitBreaker.Call (NewCircuitBreaker 3 1000) 0 (countingOp r) 0).2 = (1, r) :=
  operation_result_passthrough (NewCircuitBreaker 3 1000) 0
    (countingOp (some "downstream boom")) 0 (fun hst => by simp [NewCircuitBreaker] at hst)

/-- Claim C7 counterexample: the rejection error is only
`fmt.Errorf("circuit breaker is OPEN")`, observable by its message alone.
A CLOSED breaker invokes the operation (counter 1); when that operation
itself returns an error with the rejection message, the call's result is
exactly the same error value a pure rejection (counter 0) produces — the
caller cannot tell the invoked-and-failed call from the rejected one. -/
theorem rejection_error_collides :
    (CircuitBreaker.Call (NewCircuitBreaker 3 1000) 0
      (countingOp (some breakerOpenMsg)) 0).2 = (1, some breakerOpenMsg)
    ∧ (CircuitBreaker.Call
        { state := CircuitState.OPEN, failureCount := 3, lastFailure := 0,
          failureThreshold := 3, timeout := 1000 }
        600 (countingOp (some "x")) 0).2 = (0, some breakerOpenMsg) := by
  constructor
  · decide
  · decide

/-- Claim C7 (amended): the rejection error carries no identity beyond its
message, so the distinction is reliable only when the operation never
returns the message "circuit breaker is OPEN": on every call that invokes
the operation, the result equals the rejection error exactly when the
operation itself returned that message. -/
theorem rejection_distinct_iff_message_differs (cb : CircuitBreaker) (now : Int)
    (r : Option String)
    (h : cb.state = CircuitState.OPEN → cb.timeout < now - cb.lastFailure) :
    (CircuitBreaker.Call cb now (countingOp r) 0).2.2 = some breakerOpenMsg
      ↔ r = some breakerOpenMsg := by
  have h2 := call_counting_run cb now r h
  rw [Prod.ext_iff] at h2
  rw [h2.2]

theorem rejection_distinct_iff_message_differs_witness :
    (CircuitBreaker.Call (NewCircuitBreaker 3 1000) 0
      (countingOp (some "plain failure")) 0).2.2 = some breakerOpenMsg
      ↔ some "plain failure" = some breakerOpenMsg :=
  rejection_distinct_iff_message_differs (NewCircuitBreaker 3 1000) 0
    (some "plain failure") (fun hst => by simp [NewCircuitBreaker] at hst)

/-- Claim C8 counterexample: `NewCircuitBreaker` performs no validation.
With threshold 0 it returns a supervisor in the normal initial CLOSED state
whose `Call` still invokes operations and returns their results — the
configuration is not rejected. -/
theorem nonpositive_threshold_accepted :
    NewCircuitBreaker 0 1000
      = { state := CircuitState.CLOSED, failureCount := 0, lastFailure := 0,
          failureThreshold := 0, timeout := 1000 }
    ∧ (CircuitBreaker.Call (NewCircuitBreaker 0 1000) 0 (countingOp none) 0).2 = (1, none) := by
  constructor
  · rfl
  · decide

/-- Claim C8 (amended): construction does not validate `failureThreshold`:
for every threshold, non-positive values included, it returns a supervisor
with initial state CLOSED, failure count 0 and the given configuration. -/
theorem construction_never_rejects (threshold timeout : Int) (_h : threshold ≤ 0) :
    NewCircuitBreaker threshold timeout
      = { state := CircuitState.CLOSED, failureCount := 0, lastFailure := 0,
          failureThreshold := threshold, timeout := timeout } := rfl

theorem construction_never_rejects_witness :
    NewCircuitBreaker (-2) 1000
      = { state := CircuitState.CLOSED, failureCount := 0, lastFailure := 0,
          failureThreshold := -2, timeout := 1000 } :=
  construction_never_rejects (-2) 1000 (by decide)

/-- Claim C1: from CLOSED with failure count 0 and a positive threshold, a
run of consecutive failing calls leaves the breaker OPEN exactly when the
run length has reached `failureThreshold` — below the threshold the breaker
is still CLOSED with the count equal to the number of failures so far
(never earlier), and from the threshold on it is OPEN (never later). -/
theorem trips_exactly_at_threshold (cb : CircuitBreaker) (l : List (Int × String))
    (hst : cb.state = CircuitState.CLOSED) (hc : cb.failureCount = 0)
    (hth : 0 < cb.failureThreshold) :
    ((runCalls cb (l.map fun p => (p.1, some p.2))).state = CircuitState.OPEN
      ↔ cb.failureThreshold ≤ (l.length : Int))
    ∧ ((l.length : Int) < cb.failureThreshold →
        (runCalls cb (l.map fun p => (p.1, some p.2))).state = CircuitState.CLOSED
        ∧ (runCalls cb (l.map fun p => (p.1, some p.2))).failureCount
            = (l.length : Int)) := by
  constructor
  · constructor
    · intro hopen
      by_contra hlt
      push_neg at hlt
      have h2 := (runCalls_closed_under l cb hst (by omega)).1
      rw [h2] at hopen
      simp at hopen
    · intro hge
      exact runCalls_trip l cb hst (by omega) (by omega)
  · intro hlt
    have h2 := runCalls_closed_under l cb hst (by omega)
    exact ⟨h2.1, by rw [h2.2, hc]; ring⟩

theorem trips_exactly_at_threshold_witness :
    (runCalls (NewCircuitBreaker 2 100)
      ([((0 : Int), "a"), (1, "b")].map fun p => (p.1, some p.2))).state
      = CircuitState.OPEN :=
  (trips_exactly_at_threshold (NewCircuitBreaker 2 100) [(0, "a"), (1, "b")]
    rfl rfl (by decide)).1.mpr (by decide)

/-- Claim C9: calls are serialized by the mutex held for the whole body of
`Call`, so a batch of N concurrent calls against an OPEN breaker whose
timeout (assumed non-negative) has expired executes as some sequential
order of atomic calls, all at the instant `now`.  Whatever that order and
whatever each call's operation would return, exactly one call of the batch
finds the breaker OPEN-and-expired, performs the OPEN → HALF_OPEN
transition and runs its operation as the probe; every later call either is
rejected or runs against the post-probe (HALF_OPEN-resolved) state. -/
theorem exactly_one_probe (cb : CircuitBreaker) (now : Int) (r : Option String)
    (rest : List (Option String))
    (hst : cb.state = CircuitState.OPEN)
    (ht : cb.timeout < now - cb.lastFailure)
    (hto : 0 ≤ cb.timeout) :
    probeCount cb now (r :: rest) = 1 := by
  unfold probeCount
  rw [if_pos ⟨hst, ht⟩]
  rw [probeCount_zero now rest _
    (by rw [(call_config cb now (countingOp r) 0).2]; exact hto)
    (call_post_inv cb now r hto)]

theorem exactly_one_probe_witness :
    probeCount
      { state := CircuitState.OPEN, failureCount := 3, lastFailure := 0,
        failureThreshold := 3, timeout := 1000 }
      1500 [some "x", none, some "y"] = 1 :=
  exactly_one_probe
    { state := CircuitState.OPEN, failureCount := 3, lastFailure := 0,
      failureThreshold := 3, timeout := 1000 }
    1500 (some "x") [none, some "y"] rfl (by decide) (by decide)

/-- Claim C10: HALF_OPEN is never observable at a quiescent point: a freshly
constructed breaker reports CLOSED, no completed `Call` ever leaves the
state field at HALF_OPEN (whatever state it started from and whatever the
operation did), and along every scripted sequence of calls from
construction, `GetState` reports either CLOSED or OPEN. -/
theorem halfopen_never_quiescent :
    (∀ threshold timeout : Int,
      (NewCircuitBreaker threshold timeout).GetState = CircuitState.CLOSED)
    ∧ (∀ (σ : Type) (cb : CircuitBreaker) (now : Int) (fn : σ → σ × Option String) (s : σ),
        ((CircuitBreaker.Call cb now fn s).1).GetState ≠ CircuitState.HALF_OPEN)
    ∧ (∀ (threshold timeout : Int) (calls : List (Int × Option String)),
        (runCalls (NewCircuitBreaker threshold timeout) calls).GetState
            = CircuitState.CLOSED
        ∨ (runCalls (NewCircuitBreaker threshold timeout) calls).GetState
            = CircuitState.OPEN) := by
  refine ⟨fun _ _ => rfl, fun σ cb now fn s => call_not_halfopen cb now fn s, ?_⟩
  have key : ∀ (calls : List (Int × Option String)) (cb : CircuitBreaker),
      cb.state ≠ CircuitState.HALF_OPEN →
      (runCalls cb calls).state ≠ CircuitState.HALF_OPEN := by
    intro calls
    induction calls with
    | nil => intro cb h; simpa [runCalls] using h
    | cons p rest ih =>
      intro cb _
      rw [runCalls_cons]
      exact ih _ (call_not_halfopen _ _ _ _)
  intro threshold timeout calls
  have h := key calls (NewCircuitBreaker threshold timeout) (by simp [NewCircuitBreaker])
  simp only [CircuitBreaker.GetState]
  rcases h3 : (runCalls (NewCircuitBreaker threshold timeout) calls).state
  · exact Or.inl rfl
  · exact Or.inr rfl
  · exact absurd h3 h

theorem halfopen_never_quiescent_witness :
    (runCalls (NewCircuitBreaker 3 1000) [(0, some "f")]).GetState = CircuitState.CLOSED
    ∨ (runCalls (NewCircuitBreaker 3 1000) [(0, some "f")]).GetState = CircuitState.OPEN :=
  halfopen_never_quiescent.2.2 3 1000 [(0, some "f")]
